import Mathlib

/-!
Verification of the AudioMNIST feature-extraction pipeline
(`src/source/data_processing.py`, `src/main.py`) against its
natural-language specification.

Numeric samples are embedded as exact rationals (`ℚ`); np.float64 feature
values are embedded as `Option ℚ`, with `some q` an exactly-represented
finite value and `none` the non-finite IEEE results (NaN and ±infinity,
conflated into one sentinel).  IEEE float arithmetic never raises — division
by zero yields a non-finite value, and the accompanying RuntimeWarning is
suppressed by `warnings.filterwarnings("ignore")` in src/main.py — so the
embedded float operations are total and propagate the sentinel; comparisons
against the sentinel are false, as IEEE prescribes for NaN.  Python
exceptions (the `ValueError` of `zero_pad`, the error `statistics.median`
raises on empty data) are embedded as `Except.error ()`.
-/

set_option autoImplicit false

namespace AudioMNIST

/-- Decidable equality for `Except`, used only to evaluate the embedded
functions on concrete inputs. -/
def exceptDecEq {ε α : Type} [DecidableEq ε] [DecidableEq α] : DecidableEq (Except ε α)
  | Except.error e, Except.error f =>
    if h : e = f then isTrue (by rw [h]) else isFalse (by intro c; injection c; contradiction)
  | Except.error _, Except.ok _ => isFalse (by intro c; exact Except.noConfusion c)
  | Except.ok _, Except.error _ => isFalse (by intro c; exact Except.noConfusion c)
  | Except.ok a, Except.ok b =>
    if h : a = b then isTrue (by rw [h]) else isFalse (by intro c; injection c; contradiction)

instance {ε α : Type} [DecidableEq ε] [DecidableEq α] : DecidableEq (Except ε α) := exceptDecEq

/-- One comparison step of Python's built-in `min(...)` on finite values:
keep the running minimum unless the next value is strictly smaller.  (Used
for the magnitude spectrum in `feature_creation`, whose values are finite
and NaN-free, so the plain ℚ comparison is exact.) -/
def pyMinStep (a b : ℚ) : ℚ := if b < a then b else a

/-- One comparison step of Python's built-in `max(...)` on finite values. -/
def pyMaxStep (a b : ℚ) : ℚ := if a < b then b else a

/-- Embedding of Python `min(iterable)` over a list of finite numbers: a left
fold of the binary comparison over the remaining elements, starting from the
first one.  The `[]` case returns a junk value (Python raises there); no
theorem relies on it. -/
def pyListMin : List ℚ → ℚ
  | [] => 0
  | x :: xs => xs.foldl pyMinStep x

/-- Embedding of Python `max(iterable)` over a list of finite numbers,
analogous to `pyListMin`. -/
def pyListMax : List ℚ → ℚ
  | [] => 0
  | x :: xs => xs.foldl pyMaxStep x

/-- Embedding of the `<` comparison on np.float64 values: exact on finite
values; every comparison against a non-finite operand is `false`, as IEEE
prescribes for NaN.  (The sentinel `none` conflates NaN with ±infinity; an
infinity, which IEEE does order, never arises inside the embedded
pipeline functions on finite data, so only the NaN behaviour is exercised.) -/
def fLt (a b : Option ℚ) : Bool :=
  match a, b with
  | some x, some y => decide (x < y)
  | _, _ => false

/-- One comparison step of Python's built-in `min(...)` on np.float64 values:
keep the running minimum unless the next value compares strictly smaller. -/
def fMinStep (a b : Option ℚ) : Option ℚ := if fLt b a then b else a

/-- One comparison step of Python's built-in `max(...)` on np.float64
values. -/
def fMaxStep (a b : Option ℚ) : Option ℚ := if fLt a b then b else a

/-- Embedding of Python `min(iterable)` over np.float64 values: a left fold of
the binary comparison starting from the first element (so a NaN in first
position propagates, a later NaN is skipped — Python's actual behaviour).
The `[]` case returns the junk value `none` (Python raises there); no theorem
relies on it. -/
def fListMin : List (Option ℚ) → Option ℚ
  | [] => none
  | x :: xs => xs.foldl fMinStep x

/-- Embedding of Python `max(iterable)` over np.float64 values, analogous to
`fListMin`. -/
def fListMax : List (Option ℚ) → Option ℚ
  | [] => none
  | x :: xs => xs.foldl fMaxStep x

/-- Embedding of np.float64 subtraction: exact on finite values, sentinel
otherwise (NaN/inf operands give non-finite results). -/
def fSub : Option ℚ → Option ℚ → Option ℚ
  | some a, some b => some (a - b)
  | _, _ => none

/-- Embedding of np.float64 division: exact on finite values with a non-zero
divisor; a zero divisor gives NaN (`0/0`) or ±infinity (`x/0`), and
non-finite operands give non-finite results — all the sentinel `none`.  The
division never raises: numpy emits a RuntimeWarning, which src/main.py line
15 suppresses. -/
def fDiv : Option ℚ → Option ℚ → Option ℚ
  | some a, some b => if b = 0 then none else some (a / b)
  | _, _ => none

/-- The `features.values()` view of a feature dictionary.  A Python dict is
embedded as an association list in insertion order with (by construction of a
dict) pairwise-distinct keys. -/
def dictValues (d : List (String × Option ℚ)) : List (Option ℚ) := d.map Prod.snd

/-- One iteration of the loop body of `DataProcessing.normalize_features`
(src/source/data_processing.py line 111) at the entry of index `i`:

  `features[key] = (features[key] - min(features.values()))
                     / (max(features.values()) - min(features.values()))`

Both `min` and `max` are recomputed from the dictionary's *current* values,
which already contain the updates made for earlier keys.  All values are
np.float64, so a zero denominator silently produces the non-finite sentinel
`none`; nothing is raised. -/
def normStep (d : List (String × Option ℚ)) (i : ℕ) : List (String × Option ℚ) :=
  match d[i]? with
  | none => d
  | some (k, v) =>
    d.set i (k, fDiv (fSub v (fListMin (dictValues d)))
      (fSub (fListMax (dictValues d)) (fListMin (dictValues d))))

/-- The `for key in feature_keys` loop of `normalize_features`, iterating the
entry indices left to right and threading the mutated dictionary. -/
def normLoop : List (String × Option ℚ) → List ℕ → List (String × Option ℚ)
  | d, [] => d
  | d, i :: is => normLoop (normStep d i) is

/-- Embedding of `DataProcessing.normalize_features`
(src/source/data_processing.py lines 100-114).  `feature_keys =
list(features.keys())` is a snapshot of the keys in insertion order; since
dict keys are distinct, iterating them is iterating the entry positions
`0, …, n-1` of the association list.  The function is total: np.float64
arithmetic never raises, a degenerate denominator just floods values with
the non-finite sentinel. -/
def normalize_features (d : List (String × Option ℚ)) : List (String × Option ℚ) :=
  normLoop d (List.range d.length)

/-- Embedding of `DataProcessing.zero_pad` (src/source/data_processing.py lines 30-52).
`padding_length` is the configured `target_sr`.  The draw
`np.random.randint(low=0, high=padding_length - len(data))` is passed in as
the `offset` argument (theorems quantify over its support).  The slice
assignment `embedded_data[offset:offset+len(data)] = data` into the zero
buffer `np.zeros(padding_length)` is `take offset ++ data ++ drop (offset +
len)`.  The `ValueError` raised for over-long data is `Except.error ()`. -/
def zero_pad (target_sr offset : ℕ) (data : List ℚ) : Except Unit (List ℚ) :=
  let padding_length := target_sr
  if data.length < padding_length then
    let embedded_data : List ℚ := List.replicate padding_length 0
    Except.ok (embedded_data.take offset ++ data ++ embedded_data.drop (offset + data.length))
  else if data.length = padding_length then
    Except.ok data
  else
    Except.error ()

/-- Embedding of `np.mean` on a list of np.float64 values: sum divided by length.  On the
empty list numpy returns NaN; here `0/0 = 0` is the junk value of `ℚ`, and
every use either guards the empty case or treats `mean = 0` as the degenerate
(NaN-producing) branch, as `pyModindx` does. -/
def npMean (l : List ℚ) : ℚ := l.sum / l.length

/-- Population variance (numpy default `ddof=0`), the square of `np.std`. -/
def npVar (l : List ℚ) : ℚ := npMean (l.map (fun x => (x - npMean l) ^ 2))

/-- Insertion step of sorting the data, as `statistics.median` does before
picking the middle. -/
def insertSorted (x : ℚ) : List ℚ → List ℚ
  | [] => [x]
  | y :: ys => if x ≤ y then x :: y :: ys else y :: insertSorted x ys

/-- Embedding of Python `sorted(data)` for numeric data: the values in ascending order. -/
def pySorted (l : List ℚ) : List ℚ := l.foldr insertSorted []

/-- Embedding of `statistics.median`: the middle element of the sorted data, or the mean of
the two middle elements when the length is even.  (`statistics.median` raises
on empty data; `feature_creation` surfaces that, so the junk default here is
never relied upon.) -/
def pyMedian (l : List ℚ) : ℚ :=
  if l.length % 2 = 1 then (pySorted l).getD (l.length / 2) 0
  else ((pySorted l).getD (l.length / 2 - 1) 0 + (pySorted l).getD (l.length / 2) 0) / 2

/-- Embedding of `np.diff`: the first-difference sequence `x[i+1] - x[i]`, one element
shorter than the input. -/
def npDiff (l : List ℚ) : List ℚ := List.zipWith (fun a b => a - b) l.tail l

/-- Embedding of `scipy.stats.skew` with its default `bias=True`: `m3 / m2^(3/2)` over the
magnitudes, where `mk` is the k-th central moment.  A constant input has
`m2 = 0` and scipy returns IEEE NaN, the sentinel `none`.  The square root,
irrational in general, is delegated to the `sqrt` oracle argument; no claim
depends on its values. -/
def pySkew (sqrt : ℚ → ℚ) (l : List ℚ) : Option ℚ :=
  if npVar l = 0 then none
  else some (npMean (l.map (fun x => (x - npMean l) ^ 3)) / (npVar l * sqrt (npVar l)))

/-- Embedding of `scipy.stats.kurtosis` with its defaults (`fisher=True`, `bias=True`):
`m4 / m2^2 - 3`; NaN (sentinel `none`) when the variance is 0. -/
def pyKurtosis (l : List ℚ) : Option ℚ :=
  if npVar l = 0 then none
  else some (npMean (l.map (fun x => (x - npMean l) ^ 4)) / (npVar l) ^ 2 - 3)

/-- Embedding of `np.std(np.diff(m)) / np.mean(np.diff(m))` of line 96: the modulation
index.  When the first-difference sequence has mean exactly 0 the float
division yields IEEE NaN or ±inf — the sentinel `none`; this also covers the
empty difference sequence of a length-1 spectrum (numpy's `mean([])` is
NaN). -/
def pyModindx (sqrt : ℚ → ℚ) (l : List ℚ) : Option ℚ :=
  if npMean (npDiff l) = 0 then none
  else some (sqrt (npVar (npDiff l)) / npMean (npDiff l))

/-- Embedding of `DataProcessing.feature_creation` (src/source/data_processing.py lines
68-97): take the element-wise absolute value of the FFT data, then build the
feature dictionary in this exact insertion order.  Values are np.float64:
`some q` for a finite value (square roots delegated to the `sqrt` oracle),
`none` for the non-finite NaN/inf that numpy/scipy produce on degenerate
inputs.  `Except.error ()` models the exception that `statistics.median`
(and `max`/`min`) raise on an empty spectrum; on non-empty input nothing
raises. -/
def feature_creation (sqrt : ℚ → ℚ) (data : List ℚ) : Except Unit (List (String × Option ℚ)) :=
  let mags := data.map (fun x => |x|)
  if mags = [] then Except.error ()
  else Except.ok
    [("mean", some (npMean mags)),
     ("std", some (sqrt (npVar mags))),
     ("median", some (pyMedian mags)),
     ("max", some (pyListMax mags)),
     ("min", some (pyListMin mags)),
     ("skewness", pySkew sqrt mags),
     ("kurtosis", pyKurtosis mags),
     ("dfrange", some (pyListMax mags - pyListMin mags)),
     ("modindx", pyModindx sqrt mags)]

/-- Modelled from the spec: `DataSplit.split` — instantiated in src/main.py
line 23 with `test_size=0.1, val_size=0.1` and called at line 177 — is
imported from `src/data_split.py`, which is not part of the repository
snapshot.  Spec contract (§4.5): a random shuffle followed by slicing (the
`rows` argument is the already-shuffled table, so theorems quantify over
every shuffle outcome), with `round(test_size·N)` rows for test,
`round(val_size·N)` rows for val, and the remainder for train.  The result
is `(train, val, test)` as destructured at the call site. -/
def split {α : Type} (rows : List α) (test_size val_size : ℚ) :
    List α × List α × List α :=
  let nTest := (round (test_size * rows.length)).toNat
  let nVal := (round (val_size * rows.length)).toNat
  ((rows.drop nTest).drop nVal, (rows.drop nTest).take nVal, rows.take nTest)

/-- Embedding of `data.astype(np.float32)` of src/source/data_processing.py line 28: the
raw integer PCM samples converted to floating point, modelled as the exact
cast into ℚ. -/
def astypeFloat (data : List ℤ) : List ℚ := data.map (Int.cast : ℤ → ℚ)

/-- Modelled from the spec: the body of `librosa.core.resample(...,
res_type="scipy")` called by `DataProcessing.resample_data` is external
library code.  Spec contract (§4.1): the output has
`round(len(input) * target_rate / source_rate)` samples, while the sample
values are left to the resampler ("any high-quality polyphase or spectral
resampler is acceptable"); a nearest-index kernel stands in for them. -/
def librosaResample (target_sr fs : ℕ) (y : List ℚ) : List ℚ :=
  (List.range (round ((y.length * target_sr : ℚ) / fs)).toNat).map
    (fun i => y.getD (i * fs / target_sr) 0)

/-- Embedding of `DataProcessing.resample_data` (src/source/data_processing.py lines
15-28): convert the input to floating point, then hand it to the
resampler. -/
def resample_data (target_sr fs : ℕ) (data : List ℤ) : List ℚ :=
  librosaResample target_sr fs (astypeFloat data)

/-- A Python value held in a feature record: a numeric np.float64 feature
(`some q` finite, `none` the non-finite sentinel) or a label string. -/
inductive PyVal where
  | num (x : Option ℚ)
  | str (s : String)
deriving DecidableEq

/-- Embedding of Python `d[k] = v` on a dict object: overwrite the value of an existing
key in place (keeping its position), or append a fresh key at the end
(insertion order). -/
def dictSet (d : List (String × PyVal)) (k : String) (v : PyVal) : List (String × PyVal) :=
  if d.any (fun e => e.fst == k) then
    d.map (fun e => if e.fst = k then (k, v) else e)
  else d ++ [(k, v)]

/-- The heap of dict objects; a Python variable bound to a dict holds an
index (reference) into it.  Mutation through one reference is visible
through every alias. -/
abbrev Store := List (List (String × PyVal))

/-- Embedding of `DataProcessing.add_gender` (src/source/data_processing.py lines
117-129): `features["gender"] = gender` mutates the referenced dict object
on the heap, and `return features` returns the same reference — no new
object is allocated. -/
def add_gender (σ : Store) (r : ℕ) (gender : String) : Store × ℕ :=
  (σ.set r (dictSet (σ.getD r []) "gender" (PyVal.str gender)), r)

/-- Embedding of `DataProcessing.add_digit` (src/source/data_processing.py lines 132-144),
analogous to `add_gender`. -/
def add_digit (σ : Store) (r : ℕ) (digit : String) : Store × ℕ :=
  (σ.set r (dictSet (σ.getD r []) "digit" (PyVal.str digit)), r)

/-- View of an all-numeric dict object as an np.float64-valued feature
vector — the state `normalize_features` is called in (the outer `none` is
the `TypeError` Python's `min` would raise on values mixing strings with
floats, which cannot occur in the pipeline). -/
def asNumDict : List (String × PyVal) → Option (List (String × Option ℚ))
  | [] => some []
  | (k, PyVal.num q) :: rest => (asNumDict rest).map (fun d => (k, q) :: d)
  | (_, PyVal.str _) :: _ => none

/-- The converse embedding of a numeric feature vector into dict values. -/
def toPyDict (d : List (String × Option ℚ)) : List (String × PyVal) :=
  d.map (fun e => (e.fst, PyVal.num e.snd))

/-- Store-level `DataProcessing.normalize_features`: the dict object at `r`
is rewritten in place by the loop's `features[key] = ...` assignments and
the same reference is returned.  `Except.error ()` is only the impossible
mixed-value `TypeError`; the numeric computation itself is total. -/
def normalize_features_st (σ : Store) (r : ℕ) : Except Unit (Store × ℕ) :=
  match asNumDict (σ.getD r []) with
  | none => Except.error ()
  | some dq => Except.ok (σ.set r (toPyDict (normalize_features dq)), r)

/-- C4: a signal strictly longer than `target_length` makes `zero_pad` fail
with `LengthExceededError` (the `ValueError` of line 49); no truncated buffer
is ever returned. -/
theorem zero_pad_length_exceeded (target_sr offset : ℕ) (data : List ℚ)
    (h : target_sr < data.length) :
    zero_pad target_sr offset data = Except.error () := by
  unfold zero_pad
  rw [if_neg (by omega), if_neg (by omega)]

/-- Witness for `zero_pad_length_exceeded` at `target_sr = 2`,
`data = [1, 2, 3]`. -/
theorem zero_pad_length_exceeded_witness :
    zero_pad 2 0 [(1 : ℚ), 2, 3] = Except.error () :=
  zero_pad_length_exceeded 2 0 [(1 : ℚ), 2, 3] (by decide)

/-- C5: for a signal strictly shorter than `target_length` and any offset in
the support `[0, target_length - len(signal))` of the random draw, `zero_pad`
returns the zero buffer of length exactly `target_length` with the input
signal embedded unchanged as the contiguous block starting at `offset`:
zeros before it, the signal itself, zeros after it, and position `offset + i`
holds sample `i` of the input. -/
theorem zero_pad_embeds (target_sr offset : ℕ) (data : List ℚ)
    (h1 : data.length < target_sr) (h2 : offset < target_sr - data.length) :
    zero_pad target_sr offset data =
      Except.ok (List.replicate offset (0 : ℚ) ++ data ++
        List.replicate (target_sr - offset - data.length) (0 : ℚ)) ∧
    (List.replicate offset (0 : ℚ) ++ data ++
        List.replicate (target_sr - offset - data.length) (0 : ℚ)).length = target_sr ∧
    ∀ i : ℕ, i < data.length →
      (List.replicate offset (0 : ℚ) ++ data ++
        List.replicate (target_sr - offset - data.length) (0 : ℚ))[offset + i]? = data[i]? := by
  refine ⟨?_, ?_, ?_⟩
  · unfold zero_pad
    rw [if_pos h1]
    simp only [List.take_replicate, List.drop_replicate]
    have hmin : min offset target_sr = offset := by omega
    have hsub : target_sr - (offset + data.length) = target_sr - offset - data.length := by omega
    rw [hmin, hsub]
  · simp only [List.length_append, List.length_replicate]
    omega
  · intro i hi
    rw [List.append_assoc,
      List.getElem?_append_right (by simp only [List.length_replicate]; omega),
      List.getElem?_append_left (by simp only [List.length_replicate]; omega)]
    congr 1
    simp only [List.length_replicate]
    omega

/-- Witness for `zero_pad_embeds` at `target_sr = 4`, `offset = 1`,
`data = [5, 7]`. -/
theorem zero_pad_embeds_witness :
    zero_pad 4 1 [(5 : ℚ), 7] =
      Except.ok (List.replicate 1 (0 : ℚ) ++ [(5 : ℚ), 7] ++
        List.replicate (4 - 1 - [(5 : ℚ), 7].length) (0 : ℚ)) ∧
    (List.replicate 1 (0 : ℚ) ++ [(5 : ℚ), 7] ++
        List.replicate (4 - 1 - [(5 : ℚ), 7].length) (0 : ℚ)).length = 4 ∧
    ∀ i : ℕ, i < [(5 : ℚ), 7].length →
      (List.replicate 1 (0 : ℚ) ++ [(5 : ℚ), 7] ++
        List.replicate (4 - 1 - [(5 : ℚ), 7].length) (0 : ℚ))[1 + i]? = [(5 : ℚ), 7][i]? :=
  zero_pad_embeds 4 1 [(5 : ℚ), 7] (by decide) (by decide)

/-- A sentinel accumulator absorbs the `min` fold step: every comparison
against NaN is false, so the running minimum stays NaN. -/
theorem fMinStep_none_left (b : Option ℚ) : fMinStep none b = none := by
  cases b <;> rfl

/-- A sentinel accumulator absorbs the `max` fold step. -/
theorem fMaxStep_none_left (b : Option ℚ) : fMaxStep none b = none := by
  cases b <;> rfl

/-- Once the running minimum is the sentinel, the whole fold is. -/
theorem foldl_fMinStep_none : ∀ l : List (Option ℚ), l.foldl fMinStep none = none
  | [] => rfl
  | b :: l => by
    rw [List.foldl_cons, fMinStep_none_left]
    exact foldl_fMinStep_none l

/-- Once the running maximum is the sentinel, the whole fold is. -/
theorem foldl_fMaxStep_none : ∀ l : List (Option ℚ), l.foldl fMaxStep none = none
  | [] => rfl
  | b :: l => by
    rw [List.foldl_cons, fMaxStep_none_left]
    exact foldl_fMaxStep_none l

/-- Folding the `min` comparison over copies of the accumulator value leaves
the accumulator unchanged. -/
theorem foldl_fMinStep_const (c : ℚ) :
    ∀ xs : List (Option ℚ), (∀ x ∈ xs, x = some c) → xs.foldl fMinStep (some c) = some c
  | [], _ => rfl
  | x :: xs, h => by
    have hx : x = some c := h x (List.mem_cons_self x xs)
    have hc : fMinStep (some c) x = some c := by
      rw [hx]
      exact ite_self _
    rw [List.foldl_cons, hc]
    exact foldl_fMinStep_const c xs fun y hy => h y (List.mem_cons_of_mem x hy)

/-- Folding the `max` comparison over copies of the accumulator value leaves
the accumulator unchanged. -/
theorem foldl_fMaxStep_const (c : ℚ) :
    ∀ xs : List (Option ℚ), (∀ x ∈ xs, x = some c) → xs.foldl fMaxStep (some c) = some c
  | [], _ => rfl
  | x :: xs, h => by
    have hx : x = some c := h x (List.mem_cons_self x xs)
    have hc : fMaxStep (some c) x = some c := by
      rw [hx]
      exact ite_self _
    rw [List.foldl_cons, hc]
    exact foldl_fMaxStep_const c xs fun y hy => h y (List.mem_cons_of_mem x hy)

/-- A non-finite subtrahend gives a non-finite difference. -/
theorem fSub_none_right (a : Option ℚ) : fSub a none = none := by
  cases a <;> rfl

/-- A non-finite numerator gives a non-finite quotient. -/
theorem fDiv_none_left (b : Option ℚ) : fDiv none b = none := by
  cases b <;> rfl

/-- A loop step on a dictionary whose first value is already the sentinel
turns the processed entry into the sentinel too: the recomputed minimum is
NaN (a first-position NaN absorbs the fold), so the numerator and hence the
quotient are NaN. -/
theorem normStep_head_none (k0 : String) (t : List (String × Option ℚ)) (i : ℕ)
    (k : String) (v : Option ℚ)
    (h : ((k0, (none : Option ℚ)) :: t)[i]? = some (k, v)) :
    normStep ((k0, (none : Option ℚ)) :: t) i =
      ((k0, (none : Option ℚ)) :: t).set i (k, none) := by
  have hmin : fListMin (dictValues ((k0, (none : Option ℚ)) :: t)) = none :=
    foldl_fMinStep_none (dictValues t)
  unfold normStep
  simp only [h]
  rw [hmin, fSub_none_right, fDiv_none_left]

/-- Loop iterations that only touch indices ≥ 1 preserve entry 0. -/
theorem normLoop_getElem_zero : ∀ (is : List ℕ) (d : List (String × Option ℚ)),
    (∀ i ∈ is, i ≠ 0) → (normLoop d is)[0]? = d[0]?
  | [], _, _ => rfl
  | i :: is, d, hne => by
    rw [show normLoop d (i :: is) = normLoop (normStep d i) is from rfl]
    rw [normLoop_getElem_zero is (normStep d i) (fun j hj => hne j (List.mem_cons_of_mem i hj))]
    unfold normStep
    cases hd : d[i]? with
    | none => rfl
    | some kv =>
      obtain ⟨kk, vv⟩ := kv
      simp only [hd]
      exact List.getElem?_set_ne (hne i (List.mem_cons_self i is))

/-- Running the loop over the indices `i, …, i + m - 1` of a dictionary whose
first value is the sentinel: the length and the entries before `i` are
untouched, and every processed entry keeps its key and becomes the
sentinel. -/
theorem normLoop_range_none : ∀ (m i : ℕ) (d : List (String × Option ℚ)),
    i + m = d.length →
    (∃ k0 t, d = (k0, (none : Option ℚ)) :: t) →
    (normLoop d (List.range' i m)).length = d.length ∧
    (∀ j, j < i → (normLoop d (List.range' i m))[j]? = d[j]?) ∧
    (∀ j, i ≤ j → j < d.length →
      ∃ kj vj, d[j]? = some (kj, vj) ∧
        (normLoop d (List.range' i m))[j]? = some (kj, (none : Option ℚ)))
  | 0, i, d, _, _ => by
    exact ⟨rfl, fun j _ => rfl, fun j hij hjl => absurd hjl (by omega)⟩
  | m + 1, i, d, hlen, hd => by
    obtain ⟨k0, t, rfl⟩ := hd
    have hi : i < ((k0, (none : Option ℚ)) :: t).length := by omega
    obtain ⟨⟨ki, vi⟩, hki⟩ : ∃ e, ((k0, (none : Option ℚ)) :: t)[i]? = some e :=
      ⟨_, List.getElem?_eq_getElem hi⟩
    have hstep := normStep_head_none k0 t i ki vi hki
    have hd' : ∃ k0' t', ((k0, (none : Option ℚ)) :: t).set i (ki, none) =
        (k0', (none : Option ℚ)) :: t' := by
      cases i with
      | zero => exact ⟨ki, t, rfl⟩
      | succ n => exact ⟨k0, t.set n (ki, none), rfl⟩
    obtain ⟨IH1, IH2, IH3⟩ := normLoop_range_none m (i + 1)
      (((k0, (none : Option ℚ)) :: t).set i (ki, none)) (by rw [List.length_set]; omega) hd'
    rw [show List.range' i (m + 1) = i :: List.range' (i + 1) m from rfl]
    rw [show normLoop ((k0, (none : Option ℚ)) :: t) (i :: List.range' (i + 1) m) =
      normLoop (normStep ((k0, (none : Option ℚ)) :: t) i) (List.range' (i + 1) m) from rfl]
    rw [hstep]
    refine ⟨by rw [IH1, List.length_set], ?_, ?_⟩
    · intro j hj
      rw [IH2 j (by omega)]
      exact List.getElem?_set_ne (by omega)
    · intro j hij hjl
      by_cases hji : j = i
      · subst hji
        refine ⟨ki, vi, hki, ?_⟩
        rw [IH2 j (by omega)]
        rw [List.getElem?_set_self hi]
      · obtain ⟨kj, vj, hdj, hrj⟩ := IH3 j (by omega) (by rw [List.length_set]; exact hjl)
        refine ⟨kj, vj, ?_, hrj⟩
        rw [← hdj]
        exact (List.getElem?_set_ne (by omega)).symm

/-- C2: `normalize_features` rescales the entries sequentially, mutating the
dictionary as it goes and recomputing `min`/`max` over the current values at
each step.  Consequently (first conjunct) the first key in iteration order is
always mapped with the original vector's minimum and maximum, and (second
conjunct) a later key need not be: on `{a:10, b:5, c:20}` the second key `b`
ends at `14/59` although min-max scaling with the original bounds would give
`(5-5)/(20-5) = 0`, because the already-normalized value `a = 1/3` has
replaced the original minimum `5` by the time `b` is rescaled. -/
theorem normalize_features_sequential :
    (∀ (k : String) (v : Option ℚ) (rest : List (String × Option ℚ)),
        (normalize_features ((k, v) :: rest))[0]? =
          some (k, fDiv (fSub v (fListMin (dictValues ((k, v) :: rest))))
            (fSub (fListMax (dictValues ((k, v) :: rest)))
              (fListMin (dictValues ((k, v) :: rest)))))) ∧
    (∃ (d : List (String × Option ℚ)) (k : String) (v : Option ℚ),
        d[1]? = some (k, v) ∧
        (normalize_features d)[1]? ≠
          some (k, fDiv (fSub v (fListMin (dictValues d)))
            (fSub (fListMax (dictValues d)) (fListMin (dictValues d))))) := by
  constructor
  · intro k v rest
    rw [normalize_features, List.length_cons, List.range_succ_eq_map]
    rw [show normLoop ((k, v) :: rest) (0 :: List.map Nat.succ (List.range rest.length)) =
      normLoop (normStep ((k, v) :: rest) 0) (List.map Nat.succ (List.range rest.length))
      from rfl]
    rw [normLoop_getElem_zero _ _ (fun j hj => by
      obtain ⟨a, -, rfl⟩ := List.mem_map.mp hj
      exact Nat.succ_ne_zero a)]
    rw [show normStep ((k, v) :: rest) 0 = ((k, v) :: rest).set 0
      (k, fDiv (fSub v (fListMin (dictValues ((k, v) :: rest))))
        (fSub (fListMax (dictValues ((k, v) :: rest)))
          (fListMin (dictValues ((k, v) :: rest))))) from by
      unfold normStep
      simp only [List.getElem?_cons_zero]]
    rw [List.getElem?_set_self (by simp)]
  · refine ⟨[("a", some 10), ("b", some 5), ("c", some 20)], "b", some 5,
      by with_unfolding_all decide, by with_unfolding_all decide⟩

/-- Witness-style instance of `normalize_features_sequential`: its first
conjunct applied to the concrete vector `{a:10, b:5, c:20}`. -/
theorem normalize_features_sequential_witness :
    (normalize_features [("a", some (10 : ℚ)), ("b", some 5), ("c", some 20)])[0]? =
      some ("a", fDiv (fSub (some (10 : ℚ))
          (fListMin (dictValues [("a", some (10 : ℚ)), ("b", some 5), ("c", some 20)])))
        (fSub (fListMax (dictValues [("a", some (10 : ℚ)), ("b", some 5), ("c", some 20)]))
          (fListMin (dictValues [("a", some (10 : ℚ)), ("b", some 5), ("c", some 20)])))) :=
  normalize_features_sequential.1 ("a") (some 10) [("b", some 5), ("c", some 20)]

/-- C3 (refuted by the code): on the constant np.float64 vector
`{mean:5, std:5}` `normalize_features` does not fail — the zero-denominator
division silently yields NaN (the RuntimeWarning is suppressed in
src/main.py line 15) and the dictionary is returned with every value the
non-finite sentinel. -/
theorem normalize_features_constant_returns :
    normalize_features [("mean", some (5 : ℚ)), ("std", some 5)] =
      [("mean", (none : Option ℚ)), ("std", none)] := by
  with_unfolding_all decide

/-- C3 as amended: a feature vector whose np.float64 values are all equal
(to a finite value) makes the first denominator `max - min` zero, but
nothing fails and nothing is guarded: IEEE division silently yields NaN, the
NaN then floods every later recomputed minimum and maximum, and
`normalize_features` returns the dictionary with its keys intact and every
value the non-finite sentinel. -/
theorem normalize_features_constant_nan (k : String) (c : ℚ)
    (rest : List (String × Option ℚ))
    (h : ∀ x ∈ dictValues ((k, some c) :: rest), x = some c) :
    normalize_features ((k, some c) :: rest) =
      ((k, some c) :: rest).map (fun e => (e.fst, (none : Option ℚ))) := by
  have htail : ∀ x ∈ dictValues rest, x = some c := fun x hx =>
    h x (List.mem_cons_of_mem _ hx)
  have hmin : fListMin (dictValues ((k, some c) :: rest)) = some c :=
    foldl_fMinStep_const c (dictValues rest) htail
  have hmax : fListMax (dictValues ((k, some c) :: rest)) = some c :=
    foldl_fMaxStep_const c (dictValues rest) htail
  have hsub : fSub (some c) (some c) = some 0 := by
    show some (c - c) = some 0
    rw [sub_self]
  have hdiv : fDiv (some (0 : ℚ)) (some 0) = none := by
    show (if (0 : ℚ) = 0 then none else some (0 / 0)) = none
    rw [if_pos rfl]
  have hstep : normStep ((k, some c) :: rest) 0 = (k, (none : Option ℚ)) :: rest := by
    unfold normStep
    simp only [List.getElem?_cons_zero]
    rw [hmin, hmax, hsub, hdiv]
    rfl
  rw [normalize_features, List.length_cons, List.range_eq_range']
  rw [show List.range' 0 (rest.length + 1) = 0 :: List.range' 1 rest.length from rfl]
  rw [show normLoop ((k, some c) :: rest) (0 :: List.range' 1 rest.length) =
    normLoop (normStep ((k, some c) :: rest) 0) (List.range' 1 rest.length) from rfl]
  rw [hstep]
  obtain ⟨K1, K2, K3⟩ := normLoop_range_none rest.length 1 ((k, (none : Option ℚ)) :: rest)
    (by simp only [List.length_cons]; omega) ⟨k, rest, rfl⟩
  apply List.ext_getElem?
  intro j
  cases j with
  | zero =>
    rw [K2 0 (by omega), List.getElem?_map]
    simp
  | succ jj =>
    by_cases hj : jj + 1 < ((k, (none : Option ℚ)) :: rest).length
    · obtain ⟨kj, vj, hdj, hrj⟩ := K3 (jj + 1) (by omega) hj
      rw [List.getElem?_cons_succ] at hdj
      rw [hrj, List.getElem?_map, List.getElem?_cons_succ, hdj]
      simp
    · have hlen2 : ((k, (none : Option ℚ)) :: rest).length ≤ jj + 1 := Nat.le_of_not_lt hj
      have h1 : (normLoop ((k, (none : Option ℚ)) :: rest)
          (List.range' 1 rest.length))[jj + 1]? = none :=
        List.getElem?_eq_none (by rw [K1]; exact hlen2)
      have h2 : (((k, some c) :: rest).map (fun e => (e.fst, (none : Option ℚ))))[jj + 1]? =
          none :=
        List.getElem?_eq_none (by rw [List.length_map]; exact hlen2)
      rw [h1, h2]

/-- Witness for `normalize_features_constant_nan` on the constant vector
`{mean:5, std:5}`. -/
theorem normalize_features_constant_nan_witness :
    normalize_features [("mean", some (5 : ℚ)), ("std", some 5)] =
      [("mean", some (5 : ℚ)), ("std", some 5)].map (fun e => (e.fst, (none : Option ℚ))) :=
  normalize_features_constant_nan ("mean") 5 [("std", some 5)] (by with_unfolding_all decide)

/-- C1 (refuted by the code): min-max normalization is intended to yield
minimum 0 and maximum 1 on every non-constant vector (the unit test
`test_normalize_features` asserts exactly that), but because the loop of
`normalize_features` recomputes `min`/`max` from the partially-updated
dictionary, the non-constant vector `{a:10, b:5, c:20}` comes out as
`{a:1/3, b:14/59, c:1}` whose minimum is `14/59`, not 0; and on the
non-constant vector `{a:2, b:1}` the dictionary has become the constant
`{a:1, b:1}` by the time `b` is rescaled, so `b` silently becomes the
non-finite NaN sentinel instead of a number with minimum 0 and maximum 1. -/
theorem normalize_features_min_not_zero :
    normalize_features [("a", some (10 : ℚ)), ("b", some 5), ("c", some 20)] =
      [("a", some (1/3 : ℚ)), ("b", some (14/59)), ("c", some 1)] ∧
    fListMin (dictValues [("a", some (1/3 : ℚ)), ("b", some (14/59)), ("c", some 1)]) =
      some (14/59) ∧
    some ((14 : ℚ)/59) ≠ some (0 : ℚ) ∧
    normalize_features [("a", some (2 : ℚ)), ("b", some 1)] =
      [("a", some (1 : ℚ)), ("b", none)] := by
  exact ⟨by with_unfolding_all decide, by with_unfolding_all decide,
    by with_unfolding_all decide, by with_unfolding_all decide⟩

/-- C6: on every non-empty magnitude spectrum `feature_creation` returns a
mapping with exactly the keys mean, std, median, max, min, skewness,
kurtosis, dfrange, modindx, in that fixed insertion order — the same for
every input (and for every value of the square-root oracle). -/
theorem feature_creation_keys (sqrt : ℚ → ℚ) (data : List ℚ) (h : data ≠ []) :
    ∃ fv, feature_creation sqrt data = Except.ok fv ∧
      fv.map Prod.fst =
        ["mean", "std", "median", "max", "min", "skewness", "kurtosis", "dfrange",
         "modindx"] := by
  have hm : data.map (fun x => |x|) ≠ [] := by
    rw [Ne, List.map_eq_nil_iff]
    exact h
  simp only [feature_creation]
  rw [if_neg hm]
  exact ⟨_, rfl, rfl⟩

/-- Witness for `feature_creation_keys` on the spectrum `[1, 1/4, 1/5, 1/4]`
with the identity square-root oracle. -/
theorem feature_creation_keys_witness :
    ∃ fv, feature_creation (fun q => q) [(1 : ℚ), 1/4, 1/5, 1/4] = Except.ok fv ∧
      fv.map Prod.fst =
        ["mean", "std", "median", "max", "min", "skewness", "kurtosis", "dfrange",
         "modindx"] :=
  feature_creation_keys (fun q => q) [(1 : ℚ), 1/4, 1/5, 1/4] (by decide)

/-- C8: when the first-difference sequence of the magnitude spectrum has mean
exactly 0, the modulation index `std(diff)/mean(diff)` divides by zero; in
np.float64 arithmetic that returns the non-finite IEEE sentinel (NaN or
±inf, embedded as `none`), and `feature_creation` returns the dictionary
carrying that sentinel as the value of its ninth entry "modindx". -/
theorem feature_creation_modindx_sentinel (sqrt : ℚ → ℚ) (data : List ℚ)
    (hne : data ≠ []) (h : npMean (npDiff (data.map (fun x => |x|))) = 0) :
    ∃ fv, feature_creation sqrt data = Except.ok fv ∧
      fv[8]? = some ("modindx", none) := by
  have hm : data.map (fun x => |x|) ≠ [] := by
    rw [Ne, List.map_eq_nil_iff]
    exact hne
  have hmod : pyModindx sqrt (data.map (fun x => |x|)) = none := by
    rw [pyModindx, if_pos h]
  simp only [feature_creation]
  rw [if_neg hm]
  refine ⟨_, rfl, ?_⟩
  simp only [List.getElem?_cons_succ, List.getElem?_cons_zero]
  rw [hmod]

/-- Witness for `feature_creation_modindx_sentinel` on the spectrum
`[1, 2, 1]`, whose first differences `[1, -1]` have mean 0. -/
theorem feature_creation_modindx_sentinel_witness :
    ∃ fv, feature_creation (fun q => q) [(1 : ℚ), 2, 1] = Except.ok fv ∧
      fv[8]? = some ("modindx", none) :=
  feature_creation_modindx_sentinel (fun q => q) [(1 : ℚ), 2, 1] (by decide)
    (by with_unfolding_all decide)

/-- C7: on every (shuffled) table of `N` rows, `split` returns three slices
`(train, val, test)` that concatenate back to exactly the input — no row
duplicated or dropped — with `round(val_size·N)` rows in val,
`round(test_size·N)` rows in test, the remainder in train, and (for tables
without duplicate rows) pairwise-disjoint partitions. -/
theorem split_partition {α : Type} (rows : List α) (test_size val_size : ℚ)
    (h : (round (test_size * rows.length)).toNat + (round (val_size * rows.length)).toNat
        ≤ rows.length) :
    (split rows test_size val_size).2.2 ++ (split rows test_size val_size).2.1 ++
        (split rows test_size val_size).1 = rows ∧
    (split rows test_size val_size).2.1.length = (round (val_size * rows.length)).toNat ∧
    (split rows test_size val_size).2.2.length = (round (test_size * rows.length)).toNat ∧
    (split rows test_size val_size).1.length =
      rows.length - (round (test_size * rows.length)).toNat -
        (round (val_size * rows.length)).toNat ∧
    (rows.Nodup →
      (split rows test_size val_size).1.Disjoint (split rows test_size val_size).2.1 ∧
      (split rows test_size val_size).1.Disjoint (split rows test_size val_size).2.2 ∧
      (split rows test_size val_size).2.1.Disjoint (split rows test_size val_size).2.2) := by
  have hTrain : (split rows test_size val_size).1 =
      (rows.drop (round (test_size * rows.length)).toNat).drop
        (round (val_size * rows.length)).toNat := rfl
  have hValc : (split rows test_size val_size).2.1 =
      (rows.drop (round (test_size * rows.length)).toNat).take
        (round (val_size * rows.length)).toNat := rfl
  have hTestc : (split rows test_size val_size).2.2 =
      rows.take (round (test_size * rows.length)).toNat := rfl
  have hu : (split rows test_size val_size).2.2 ++ ((split rows test_size val_size).2.1 ++
      (split rows test_size val_size).1) = rows := by
    rw [hTestc, hValc, hTrain, List.take_append_drop, List.take_append_drop]
  refine ⟨?_, ?_, ?_, ?_, ?_⟩
  · rw [List.append_assoc]
    exact hu
  · rw [hValc, List.length_take, List.length_drop]
    omega
  · rw [hTestc, List.length_take]
    omega
  · rw [hTrain, List.length_drop, List.length_drop]
  · intro hnd
    rw [← hu] at hnd
    obtain ⟨-, hvt, hdisj⟩ := List.nodup_append.mp hnd
    obtain ⟨-, -, hdisj2⟩ := List.nodup_append.mp hvt
    refine ⟨hdisj2.symm, ?_, ?_⟩
    · intro a ha hat
      exact hdisj hat (List.mem_append.mpr (Or.inr ha))
    · intro a ha hat
      exact hdisj hat (List.mem_append.mpr (Or.inl ha))

/-- Witness for `split_partition` at the spec's boundary case: 10 rows with
both ratios `0.1` give partitions of sizes 1 (val), 1 (test) and 8
(train). -/
theorem split_partition_witness :
    (split (List.range 10) ((1 : ℚ)/10) ((1 : ℚ)/10)).2.1.length = 1 ∧
    (split (List.range 10) ((1 : ℚ)/10) ((1 : ℚ)/10)).2.2.length = 1 ∧
    (split (List.range 10) ((1 : ℚ)/10) ((1 : ℚ)/10)).1.length = 8 := by
  have hr : (round ((1 : ℚ)/10 * (List.range 10).length)).toNat = 1 := by
    rw [List.length_range, round_eq]
    norm_num
  have h := split_partition (List.range 10) ((1 : ℚ)/10) ((1 : ℚ)/10)
    (by rw [hr, List.length_range]; omega)
  refine ⟨h.2.1.trans hr, h.2.2.1.trans hr, ?_⟩
  rw [h.2.2.2.1, hr, List.length_range]

/-- C9: `resample_data` first converts the raw integer samples to floating
point (`astype(np.float32)`, the cast into ℚ) and the resampled signal it
returns has exactly `round(len(input) * target_rate / fs)` samples. -/
theorem resample_data_length (target_sr fs : ℕ) (data : List ℤ) :
    resample_data target_sr fs data = librosaResample target_sr fs (astypeFloat data) ∧
    ((resample_data target_sr fs data).length : ℤ) =
      round ((data.length * target_sr : ℚ) / fs) := by
  refine ⟨rfl, ?_⟩
  have hq : (0 : ℚ) ≤ (data.length * target_sr : ℚ) / fs := by positivity
  have h0 : (0 : ℤ) ≤ round ((data.length * target_sr : ℚ) / fs) := by
    rw [round_eq]
    exact Int.floor_nonneg.mpr (by linarith)
  have hlen : (resample_data target_sr fs data).length =
      (round (((astypeFloat data).length * target_sr : ℚ) / fs)).toNat := by
    rw [resample_data, librosaResample, List.length_map, List.length_range]
  rw [hlen, show (astypeFloat data).length = data.length by rw [astypeFloat]; exact List.length_map data _]
  exact Int.toNat_of_nonneg h0

/-- Updating the store at a valid reference is visible through that
reference. -/
theorem store_getD_set_self (σ : Store) (r : ℕ) (x : List (String × PyVal))
    (hr : r < σ.length) : (σ.set r x).getD r [] = x := by
  rw [List.getD_eq_getElem?_getD, List.getElem?_set_self hr]
  rfl

/-- Updating the store at one reference leaves every other reference's object
untouched. -/
theorem store_getD_set_ne (σ : Store) (r r' : ℕ) (x : List (String × PyVal))
    (h : r ≠ r') : (σ.set r x).getD r' [] = σ.getD r' [] := by
  rw [List.getD_eq_getElem?_getD, List.getElem?_set_ne h, ← List.getD_eq_getElem?_getD]

/-- C10: `add_gender`, `add_digit` and `normalize_features` mutate the dict
object passed to them in place and return that very reference, not a copy:
the returned reference equals the argument, the store allocates no new
object (its length is unchanged), the object behind the caller's reference
now holds the updated entries — for `normalize_features` the
pre-normalization values are overwritten by the normalized ones — and every
other object is untouched. -/
theorem labels_mutate_in_place :
    (∀ (σ : Store) (r : ℕ) (g : String), r < σ.length →
      (add_gender σ r g).2 = r ∧
      (add_gender σ r g).1.length = σ.length ∧
      (add_gender σ r g).1.getD r [] = dictSet (σ.getD r []) "gender" (PyVal.str g) ∧
      ∀ r', r' ≠ r → (add_gender σ r g).1.getD r' [] = σ.getD r' []) ∧
    (∀ (σ : Store) (r : ℕ) (dg : String), r < σ.length →
      (add_digit σ r dg).2 = r ∧
      (add_digit σ r dg).1.length = σ.length ∧
      (add_digit σ r dg).1.getD r [] = dictSet (σ.getD r []) "digit" (PyVal.str dg) ∧
      ∀ r', r' ≠ r → (add_digit σ r dg).1.getD r' [] = σ.getD r' []) ∧
    (∀ (σ : Store) (r : ℕ) (σ' : Store) (r' : ℕ), r < σ.length →
      normalize_features_st σ r = Except.ok (σ', r') →
      r' = r ∧ σ'.length = σ.length ∧
      (∃ dq, asNumDict (σ.getD r []) = some dq ∧
        σ'.getD r [] = toPyDict (normalize_features dq)) ∧
      ∀ r'', r'' ≠ r → σ'.getD r'' [] = σ.getD r'' []) := by
  refine ⟨?_, ?_, ?_⟩
  · intro σ r g hr
    exact ⟨rfl, List.length_set σ _ _, store_getD_set_self σ r _ hr,
      fun r' hne => store_getD_set_ne σ r r' _ (fun c => hne c.symm)⟩
  · intro σ r dg hr
    exact ⟨rfl, List.length_set σ _ _, store_getD_set_self σ r _ hr,
      fun r' hne => store_getD_set_ne σ r r' _ (fun c => hne c.symm)⟩
  · intro σ r σ' r' hr h
    unfold normalize_features_st at h
    cases ha : asNumDict (σ.getD r []) with
    | none =>
      rw [ha] at h
      exact Except.noConfusion h
    | some dq =>
      simp only [ha] at h
      injection h with h2
      rw [Prod.mk.injEq] at h2
      obtain ⟨h3, h4⟩ := h2
      subst h3
      subst h4
      exact ⟨rfl, List.length_set σ _ _,
        ⟨dq, rfl, store_getD_set_self σ r _ hr⟩,
        fun r'' hne => store_getD_set_ne σ r r'' _ (fun c => hne c.symm)⟩

/-- Witness for `labels_mutate_in_place`: all three parts applied to concrete
one-object stores. -/
theorem labels_mutate_in_place_witness :
    (add_gender [[("mean", PyVal.num (some 5))]] 0 ("male")).2 = 0 ∧
    (add_gender [[("mean", PyVal.num (some 5))]] 0 ("male")).1.getD 0 [] =
      dictSet ([[("mean", PyVal.num (some 5))]].getD 0 []) "gender" (PyVal.str ("male")) ∧
    (add_digit [[("mean", PyVal.num (some 5))]] 0 ("7")).2 = 0 ∧
    ([[("a", PyVal.num (some 0)), ("b", PyVal.num (some 1))]] : Store).length =
      ([[("a", PyVal.num (some 1)), ("b", PyVal.num (some 3))]] : Store).length :=
  ⟨(labels_mutate_in_place.1 [[("mean", PyVal.num (some 5))]] 0 ("male") (by decide)).1,
   (labels_mutate_in_place.1 [[("mean", PyVal.num (some 5))]] 0 ("male") (by decide)).2.2.1,
   (labels_mutate_in_place.2.1 [[("mean", PyVal.num (some 5))]] 0 ("7") (by decide)).1,
   (labels_mutate_in_place.2.2 [[("a", PyVal.num (some 1)), ("b", PyVal.num (some 3))]] 0
      [[("a", PyVal.num (some 0)), ("b", PyVal.num (some 1))]] 0 (by decide)
      (by with_unfolding_all decide)).2.1⟩

end AudioMNIST
